import Mathlib

/-!
Formal model of the ContextVault identity-and-encryption core.

This file gives a shallow embedding, in Lean 4, of the Python backend of
the ContextVault repository: the crypto primitives
(`app/core/encryption.py`, `app/core/security.py`), the ephemeral state
stores (`app/services/state_store.py`), the auth service
(`app/services/auth_service.py`) and the vault record service
(`app/services/vault.py`).  Python byte strings are modelled as
`List Nat` (each element a byte, i.e. `< 256`), Python `str` as
`List Char` (Unicode scalar values), Python `datetime` as `Nat`
(seconds), and fallible code as `Except`.  Randomness (nonces, generated
ids and tokens) is made explicit by passing the sampled value as an
argument.  Library calls (`cryptography`'s AES-256-GCM, `hashlib`'s
SHA-256, `jose`'s JWT signing) are modelled by executable
implementations of those algorithms.
-/

set_option maxRecDepth 10000

namespace ContextVault

/-! ### Bytes -/

/-- Bytewise XOR; the result is reduced mod 256, which is the identity on
genuine bytes and keeps every intermediate value in byte range. -/
def xor8 (a b : Nat) : Nat := (a ^^^ b) % 256

/-- XOR two byte strings pointwise (truncating to the shorter one). -/
def xorBytes (a b : List Nat) : List Nat := List.zipWith xor8 a b

/-- Big-endian serialization of a value as `n` bytes. -/
def natToBytesBE (n : Nat) (v : Nat) : List Nat :=
  match n with
  | 0 => []
  | m + 1 => (v >>> (8 * m)) % 256 :: natToBytesBE m v

/-- Big-endian deserialization of a byte string. -/
def bytesToNatBE (bs : List Nat) : Nat :=
  bs.foldl (fun acc b => acc * 256 + b) 0

/-! ### Base64 (model of Python `base64.b64encode` / `base64.b64decode`) -/

/-- Standard base64 alphabet. -/
def b64Alphabet : List Char :=
  "ABCDEFGHIJKLMNOPQRSTUVWXYZabcdefghijklmnopqrstuvwxyz0123456789+/".toList

/-- Character for a 6-bit value. -/
def b64Char (n : Nat) : Char := b64Alphabet.getD n 'A'

/-- Inverse of `b64Char`: the 6-bit value of an alphabet character. -/
def b64Val (c : Char) : Option Nat :=
  let i := b64Alphabet.indexOf c
  if i < 64 then some i else none

/-- Encode bytes three at a time, padding the final partial group with
`=` as `base64.b64encode` does. -/
def b64EncodeChunks : List Nat → List Char
  | a :: b :: c :: rest =>
    b64Char (a / 4) :: b64Char (a % 4 * 16 + b / 16) ::
      b64Char (b % 16 * 4 + c / 64) :: b64Char (c % 64) :: b64EncodeChunks rest
  | [a, b] => [b64Char (a / 4), b64Char (a % 4 * 16 + b / 16), b64Char (b % 16 * 4), '=']
  | [a] => [b64Char (a / 4), b64Char (a % 4 * 16), '=', '=']
  | [] => []

/-- Model of `base64.b64encode(bs).decode("utf-8")`. -/
def b64Encode (bs : List Nat) : List Char := b64EncodeChunks bs

/-- Decode groups of four base64 characters; `=` padding is accepted
only at the tail, anything else is a `binascii.Error`. -/
def b64DecodeGroups : List Char → Except String (List Nat)
  | [] => .ok []
  | c1 :: c2 :: c3 :: c4 :: rest =>
    match b64Val c1, b64Val c2 with
    | some v1, some v2 =>
      if c3 = '=' then
        if c4 = '=' ∧ rest = [] then .ok [v1 * 4 + v2 / 16]
        else .error "Invalid base64-encoded string"
      else
        match b64Val c3 with
        | some v3 =>
          if c4 = '=' then
            if rest = [] then .ok [v1 * 4 + v2 / 16, v2 % 16 * 16 + v3 / 4]
            else .error "Invalid base64-encoded string"
          else
            match b64Val c4 with
            | some v4 =>
              match b64DecodeGroups rest with
              | .ok bs =>
                .ok ((v1 * 4 + v2 / 16) :: (v2 % 16 * 16 + v3 / 4) ::
                      (v3 % 4 * 64 + v4) :: bs)
              | .error e => .error e
            | none => .error "Invalid base64-encoded string"
        | none => .error "Invalid base64-encoded string"
    | _, _ => .error "Invalid base64-encoded string"
  | _ => .error "Incorrect padding"

/-- Model of `base64.b64decode` on a string: characters outside the
alphabet (or `=`) are discarded, then the remainder must fall into
groups of four. -/
def b64Decode (cs : List Char) : Except String (List Nat) :=
  b64DecodeGroups (cs.filter (fun c => (b64Val c).isSome || c = '='))

/-! ### UTF-8 (model of Python `str.encode("utf-8")` / `bytes.decode("utf-8")`) -/

/-- UTF-8 encoding of a single Unicode scalar value. -/
def utf8EncodeChar (c : Char) : List Nat :=
  if c.toNat < 0x80 then [c.toNat]
  else if c.toNat < 0x800 then
    [0xC0 + c.toNat / 64, 0x80 + c.toNat % 64]
  else if c.toNat < 0x10000 then
    [0xE0 + c.toNat / 4096, 0x80 + c.toNat / 64 % 64, 0x80 + c.toNat % 64]
  else
    [0xF0 + c.toNat / 262144, 0x80 + c.toNat / 4096 % 64,
      0x80 + c.toNat / 64 % 64, 0x80 + c.toNat % 64]

/-- Model of `plaintext.encode("utf-8")`. -/
def utf8Encode (s : List Char) : List Nat := s.flatMap utf8EncodeChar

/-- Scalar value of a two-byte sequence. -/
def utf8Val2 (b0 b1 : Nat) : Nat := (b0 - 0xC0) * 64 + (b1 - 0x80)

/-- Scalar value of a three-byte sequence. -/
def utf8Val3 (b0 b1 b2 : Nat) : Nat :=
  (b0 - 0xE0) * 4096 + (b1 - 0x80) * 64 + (b2 - 0x80)

/-- Scalar value of a four-byte sequence. -/
def utf8Val4 (b0 b1 b2 b3 : Nat) : Nat :=
  (b0 - 0xF0) * 262144 + (b1 - 0x80) * 4096 + (b2 - 0x80) * 64 + (b3 - 0x80)

/-- Model of `bytes.decode("utf-8")`; returns `none` exactly where Python
raises `UnicodeDecodeError` (stray continuation bytes, truncated or
overlong sequences, surrogates, out-of-range values).  A missing byte
reads as the out-of-range marker 256, which fails the continuation-byte
check. -/
def utf8Decode : List Nat → Option (List Char)
  | [] => some []
  | b0 :: rest =>
    if b0 < 0x80 then
      (utf8Decode rest).map (fun s => Char.ofNat b0 :: s)
    else if b0 < 0xC0 then none
    else if b0 < 0xE0 then
      if (0x80 ≤ rest.getD 0 256 ∧ rest.getD 0 256 < 0xC0) ∧
          0x80 ≤ utf8Val2 b0 (rest.getD 0 256) then
        (utf8Decode (rest.drop 1)).map
          (fun s => Char.ofNat (utf8Val2 b0 (rest.getD 0 256)) :: s)
      else none
    else if b0 < 0xF0 then
      if (0x80 ≤ rest.getD 0 256 ∧ rest.getD 0 256 < 0xC0) ∧
          (0x80 ≤ rest.getD 1 256 ∧ rest.getD 1 256 < 0xC0) ∧
          0x800 ≤ utf8Val3 b0 (rest.getD 0 256) (rest.getD 1 256) ∧
          ¬(0xD800 ≤ utf8Val3 b0 (rest.getD 0 256) (rest.getD 1 256) ∧
            utf8Val3 b0 (rest.getD 0 256) (rest.getD 1 256) < 0xE000) then
        (utf8Decode (rest.drop 2)).map
          (fun s => Char.ofNat (utf8Val3 b0 (rest.getD 0 256) (rest.getD 1 256)) :: s)
      else none
    else if b0 < 0xF8 then
      if (0x80 ≤ rest.getD 0 256 ∧ rest.getD 0 256 < 0xC0) ∧
          (0x80 ≤ rest.getD 1 256 ∧ rest.getD 1 256 < 0xC0) ∧
          (0x80 ≤ rest.getD 2 256 ∧ rest.getD 2 256 < 0xC0) ∧
          0x10000 ≤ utf8Val4 b0 (rest.getD 0 256) (rest.getD 1 256) (rest.getD 2 256) ∧
          utf8Val4 b0 (rest.getD 0 256) (rest.getD 1 256) (rest.getD 2 256) < 0x110000 then
        (utf8Decode (rest.drop 3)).map
          (fun s =>
            Char.ofNat
              (utf8Val4 b0 (rest.getD 0 256) (rest.getD 1 256) (rest.getD 2 256)) :: s)
      else none
    else none
termination_by l => l.length
decreasing_by
  · simp
  · simp only [List.length_cons, List.length_drop]
    omega
  · simp only [List.length_cons, List.length_drop]
    omega
  · simp only [List.length_cons, List.length_drop]
    omega

/-! ### SHA-256 (model of `hashlib.sha256`) -/

def add32 (a b : Nat) : Nat := (a + b) % 4294967296

def xor32 (a b : Nat) : Nat := (a ^^^ b) % 4294967296

def and32 (a b : Nat) : Nat := (a &&& b) % 4294967296

def not32 (a : Nat) : Nat := (a ^^^ 4294967295) % 4294967296

def rotr32 (n x : Nat) : Nat := ((x >>> n) ||| (x <<< (32 - n))) % 4294967296

def bigSigma0 (x : Nat) : Nat := xor32 (rotr32 2 x) (xor32 (rotr32 13 x) (rotr32 22 x))

def bigSigma1 (x : Nat) : Nat := xor32 (rotr32 6 x) (xor32 (rotr32 11 x) (rotr32 25 x))

def smallSigma0 (x : Nat) : Nat := xor32 (rotr32 7 x) (xor32 (rotr32 18 x) (x >>> 3))

def smallSigma1 (x : Nat) : Nat := xor32 (rotr32 17 x) (xor32 (rotr32 19 x) (x >>> 10))

def shaCh (x y z : Nat) : Nat := xor32 (and32 x y) (and32 (not32 x) z)

def shaMaj (x y z : Nat) : Nat := xor32 (and32 x y) (xor32 (and32 x z) (and32 y z))

/-- Integer `k`-th root by binary search (structural fuel). -/
def nthRootGo (k n : Nat) : Nat → Nat → Nat → Nat
  | lo, _, 0 => lo
  | lo, hi, fuel + 1 =>
    if lo = hi then lo
    else
      let mid := (lo + hi + 1) / 2
      if mid ^ k ≤ n then nthRootGo k n mid hi fuel
      else nthRootGo k n lo (mid - 1) fuel

def nthRoot (k n : Nat) : Nat := nthRootGo k n 0 n 300

/-- The fractional part of the `k`-th root of `p`, as a 32-bit word:
`⌊2^32 * p^(1/k)⌋ mod 2^32`. -/
def fracRoot32 (k p : Nat) : Nat := nthRoot k (p * 2 ^ (32 * k)) % 4294967296

/-- The first 64 primes. -/
def primes64 : List Nat :=
  [2, 3, 5, 7, 11, 13, 17, 19, 23, 29, 31, 37, 41, 43, 47, 53,
   59, 61, 67, 71, 73, 79, 83, 89, 97, 101, 103, 107, 109, 113, 127, 131,
   137, 139, 149, 151, 157, 163, 167, 173, 179, 181, 191, 193, 197, 199, 211, 223,
   227, 229, 233, 239, 241, 251, 257, 263, 269, 271, 277, 281, 283, 293, 307, 311]

/-- The SHA-256 round constants: the fractional parts of the cube roots
of the first 64 primes (FIPS 180-4 §4.2.2). -/
def K256 : List Nat := primes64.map (fracRoot32 3)

/-- Working state: eight 32-bit hash words. -/
structure Hash8 where
  a : Nat
  b : Nat
  c : Nat
  d : Nat
  e : Nat
  f : Nat
  g : Nat
  h : Nat

/-- The SHA-256 initial hash: the fractional parts of the square roots
of the first 8 primes (FIPS 180-4 §5.3.3). -/
def sha256H0 : Hash8 :=
  ⟨fracRoot32 2 2, fracRoot32 2 3, fracRoot32 2 5, fracRoot32 2 7,
   fracRoot32 2 11, fracRoot32 2 13, fracRoot32 2 17, fracRoot32 2 19⟩

/-- Group bytes into big-endian 32-bit words. -/
def bytesToWords : List Nat → List Nat
  | b0 :: b1 :: b2 :: b3 :: rest =>
    (b0 * 16777216 + b1 * 65536 + b2 * 256 + b3) :: bytesToWords rest
  | [] => []
  | [_] => []
  | [_, _] => []
  | [_, _, _] => []

/-- Extend the 16-word schedule by `n` further words. -/
def scheduleExtend (ws : List Nat) : Nat → List Nat
  | 0 => ws
  | n + 1 =>
    scheduleExtend
      (ws ++ [add32
        (add32 (smallSigma1 (ws.getD (ws.length - 2) 0)) (ws.getD (ws.length - 7) 0))
        (add32 (smallSigma0 (ws.getD (ws.length - 15) 0)) (ws.getD (ws.length - 16) 0))]) n

def sha256Round (s : Hash8) (kw : Nat × Nat) : Hash8 :=
  let t1 := add32 s.h (add32 (bigSigma1 s.e) (add32 (shaCh s.e s.f s.g) (add32 kw.1 kw.2)))
  let t2 := add32 (bigSigma0 s.a) (shaMaj s.a s.b s.c)
  ⟨add32 t1 t2, s.a, s.b, s.c, add32 s.d t1, s.e, s.f, s.g⟩

def sha256Compress (s : Hash8) (chunk : List Nat) : Hash8 :=
  let ws := scheduleExtend (bytesToWords chunk) 48
  let t := (K256.zip ws).foldl sha256Round s
  ⟨add32 s.a t.a, add32 s.b t.b, add32 s.c t.c, add32 s.d t.d,
   add32 s.e t.e, add32 s.f t.f, add32 s.g t.g, add32 s.h t.h⟩

/-- Split a byte string into `k`-byte chunks; the fuel argument (always
instantiated with the list length, which bounds the number of chunks)
makes the recursion structural. -/
def chunksGo (k : Nat) : Nat → List Nat → List (List Nat)
  | 0, _ => []
  | _ + 1, [] => []
  | fuel + 1, x :: rest =>
    (x :: rest).take k :: chunksGo k fuel ((x :: rest).drop k)

/-- Split a byte string into 64-byte chunks. -/
def chunks64 (l : List Nat) : List (List Nat) := chunksGo 64 l.length l

/-- Merkle–Damgård padding: `0x80`, zeros to 56 mod 64, 64-bit bit length. -/
def sha256Pad (msg : List Nat) : List Nat :=
  msg ++ 0x80 :: List.replicate ((119 - msg.length % 64) % 64) 0 ++
    natToBytesBE 8 (msg.length * 8)

/-- SHA-256 digest of a byte string, as 32 bytes. -/
def sha256 (msg : List Nat) : List Nat :=
  let s := (chunks64 (sha256Pad msg)).foldl sha256Compress sha256H0
  natToBytesBE 4 s.a ++ natToBytesBE 4 s.b ++ natToBytesBE 4 s.c ++
    natToBytesBE 4 s.d ++ natToBytesBE 4 s.e ++ natToBytesBE 4 s.f ++
    natToBytesBE 4 s.g ++ natToBytesBE 4 s.h

/-! ### HMAC-SHA256 and PBKDF2 (model of `PBKDF2HMAC` from `cryptography`) -/

def hmacSha256 (key msg : List Nat) : List Nat :=
  let k0 := if 64 < key.length then sha256 key else key
  let kp := k0 ++ List.replicate (64 - k0.length) 0
  sha256 ((kp.map (fun b => xor8 b 0x5c)) ++
    sha256 ((kp.map (fun b => xor8 b 0x36)) ++ msg))

def pbkdf2Iter (pw u acc : List Nat) : Nat → List Nat
  | 0 => acc
  | n + 1 =>
    pbkdf2Iter pw (hmacSha256 pw u) (xorBytes acc (hmacSha256 pw u)) n

def pbkdf2Block (pw salt : List Nat) (iters idx : Nat) : List Nat :=
  pbkdf2Iter pw (hmacSha256 pw (salt ++ natToBytesBE 4 idx))
    (hmacSha256 pw (salt ++ natToBytesBE 4 idx)) (iters - 1)

def pbkdf2HmacSha256 (pw salt : List Nat) (iters dkLen : Nat) : List Nat :=
  ((List.range ((dkLen + 31) / 32)).flatMap
    (fun j => pbkdf2Block pw salt iters (j + 1))).take dkLen

/-! ### Key derivation and token hashing (`app/core/encryption.py`,
`app/core/security.py`) -/

/-- Configured PBKDF2 iteration count (`settings.PBKDF2_ITERATIONS`). -/
def PBKDF2_ITERATIONS : Nat := 100000

/-- Configured AES key size in bytes (`settings.AES_KEY_SIZE`). -/
def AES_KEY_SIZE : Nat := 32

/-- Model of `derive_master_key(google_id, encryption_salt)`.  The
process-wide `settings.APP_SECRET_KEY` is passed explicitly, since it is
environment configuration.  The password is the UTF-8 encoding of
`google_id + APP_SECRET_KEY`, run through PBKDF2-HMAC-SHA256. -/
def derive_master_key (appSecretKey google_id : List Char)
    (encryption_salt : List Nat) : List Nat :=
  pbkdf2HmacSha256 (utf8Encode (google_id ++ appSecretKey)) encryption_salt
    PBKDF2_ITERATIONS AES_KEY_SIZE

def hexDigit (n : Nat) : Char := "0123456789abcdef".toList.getD n '0'

def bytesToHex (bs : List Nat) : List Char :=
  bs.flatMap (fun b => [hexDigit (b / 16 % 16), hexDigit (b % 16)])

/-- Model of `hash_refresh_token` (`app/core/security.py`): hex-encoded
SHA-256 of the UTF-8 bytes of the token. -/
def hash_refresh_token (token : List Char) : List Char :=
  bytesToHex (sha256 (utf8Encode token))

/-! ### AES-256-GCM (model of `cryptography`'s `AESGCM`) -/

/-- The AES S-box. -/
def sbox : List Nat :=
  [99, 124, 119, 123, 242, 107, 111, 197, 48, 1, 103, 43,
   254, 215, 171, 118, 202, 130, 201, 125, 250, 89, 71, 240,
   173, 212, 162, 175, 156, 164, 114, 192, 183, 253, 147, 38,
   54, 63, 247, 204, 52, 165, 229, 241, 113, 216, 49, 21,
   4, 199, 35, 195, 24, 150, 5, 154, 7, 18, 128, 226,
   235, 39, 178, 117, 9, 131, 44, 26, 27, 110, 90, 160,
   82, 59, 214, 179, 41, 227, 47, 132, 83, 209, 0, 237,
   32, 252, 177, 91, 106, 203, 190, 57, 74, 76, 88, 207,
   208, 239, 170, 251, 67, 77, 51, 133, 69, 249, 2, 127,
   80, 60, 159, 168, 81, 163, 64, 143, 146, 157, 56, 245,
   188, 182, 218, 33, 16, 255, 243, 210, 205, 12, 19, 236,
   95, 151, 68, 23, 196, 167, 126, 61, 100, 93, 25, 115,
   96, 129, 79, 220, 34, 42, 144, 136, 70, 238, 184, 20,
   222, 94, 11, 219, 224, 50, 58, 10, 73, 6, 36, 92,
   194, 211, 172, 98, 145, 149, 228, 121, 231, 200, 55, 109,
   141, 213, 78, 169, 108, 86, 244, 234, 101, 122, 174, 8,
   186, 120, 37, 46, 28, 166, 180, 198, 232, 221, 116, 31,
   75, 189, 139, 138, 112, 62, 181, 102, 72, 3, 246, 14,
   97, 53, 87, 185, 134, 193, 29, 158, 225, 248, 152, 17,
   105, 217, 142, 148, 155, 30, 135, 233, 206, 85, 40, 223,
   140, 161, 137, 13, 191, 230, 66, 104, 65, 153, 45, 15,
   176, 84, 187, 22]

def sboxAt (b : Nat) : Nat := sbox.getD b 0

def rotWord (w : Nat) : Nat := ((w <<< 8) ||| (w >>> 24)) % 4294967296

def subWord (w : Nat) : Nat := bytesToNatBE ((natToBytesBE 4 w).map sboxAt)

/-- AES round constants as 32-bit words. -/
def rconW : List Nat :=
  [0x01000000, 0x02000000, 0x04000000, 0x08000000,
   0x10000000, 0x20000000, 0x40000000]

/-- Append `n` further words of the AES-256 key schedule. -/
def expandLoop (ws : List Nat) : Nat → List Nat
  | 0 => ws
  | n + 1 =>
    expandLoop
      (ws ++ [xor32 (ws.getD (ws.length - 8) 0)
        (if ws.length % 8 = 0 then
          xor32 (subWord (rotWord (ws.getD (ws.length - 1) 0)))
            (rconW.getD (ws.length / 8 - 1) 0)
        else if ws.length % 8 = 4 then subWord (ws.getD (ws.length - 1) 0)
        else ws.getD (ws.length - 1) 0)]) n

def keyExpansion256 (key : List Nat) : List Nat :=
  expandLoop (bytesToWords key) 52

def roundKeyBytes (ws : List Nat) (r : Nat) : List Nat :=
  ((ws.drop (4 * r)).take 4).flatMap (natToBytesBE 4)

def subBytesL (st : List Nat) : List Nat := st.map sboxAt

def shiftRowsL (st : List Nat) : List Nat :=
  [st.getD 0 0, st.getD 5 0, st.getD 10 0, st.getD 15 0,
   st.getD 4 0, st.getD 9 0, st.getD 14 0, st.getD 3 0,
   st.getD 8 0, st.getD 13 0, st.getD 2 0, st.getD 7 0,
   st.getD 12 0, st.getD 1 0, st.getD 6 0, st.getD 11 0]

def xtime (a : Nat) : Nat :=
  if 128 ≤ a then ((a * 2) ^^^ 0x1B) % 256 else (a * 2) % 256

def mul3 (a : Nat) : Nat := xor8 (xtime a) a

def mixColumn (a0 a1 a2 a3 : Nat) : List Nat :=
  [xor8 (xor8 (xtime a0) (mul3 a1)) (xor8 a2 a3),
   xor8 (xor8 a0 (xtime a1)) (xor8 (mul3 a2) a3),
   xor8 (xor8 a0 a1) (xor8 (xtime a2) (mul3 a3)),
   xor8 (xor8 (mul3 a0) a1) (xor8 a2 (xtime a3))]

def mixColumnsL : List Nat → List Nat
  | a0 :: a1 :: a2 :: a3 :: rest => mixColumn a0 a1 a2 a3 ++ mixColumnsL rest
  | l => l

def addRoundKey (st rk : List Nat) : List Nat := xorBytes st rk

def aesRound (rk st : List Nat) : List Nat :=
  addRoundKey (mixColumnsL (shiftRowsL (subBytesL st))) rk

def aesFinalRound (rk st : List Nat) : List Nat :=
  addRoundKey (shiftRowsL (subBytesL st)) rk

/-- One AES-256 block encryption (forward direction; GCM is a CTR mode
and never needs the inverse cipher). -/
def aes256Block (key block : List Nat) : List Nat :=
  let ws := keyExpansion256 key
  aesFinalRound (roundKeyBytes ws 14)
    ((List.range 13).foldl (fun st i => aesRound (roundKeyBytes ws (i + 1)) st)
      (addRoundKey block (roundKeyBytes ws 0)))

/-- The GCM reduction constant `R`. -/
def gf128R : Nat := 0xE1 <<< 120

/-- Carry-free multiplication in GF(2^128), GCM bit order. -/
def gf128MulGo (x z v : Nat) : Nat → Nat
  | 0 => z
  | n + 1 =>
    gf128MulGo x (if (x >>> n) % 2 = 1 then z ^^^ v else z)
      (if v % 2 = 1 then (v >>> 1) ^^^ gf128R else v >>> 1) n

def gf128Mul (x y : Nat) : Nat := gf128MulGo x 0 y 128

/-- GHASH over complete 16-byte blocks. -/
def ghash (h : Nat) (blocks : List (List Nat)) : Nat :=
  blocks.foldl (fun y b => gf128Mul (y ^^^ bytesToNatBE b) h) 0

/-- Split a byte string into 16-byte chunks. -/
def chunks16 (l : List Nat) : List (List Nat) := chunksGo 16 l.length l

/-- Zero-pad to a multiple of 16 bytes. -/
def pad16 (l : List Nat) : List Nat :=
  l ++ List.replicate ((16 - l.length % 16) % 16) 0

/-- The counter block `nonce || i` for a 96-bit nonce. -/
def gcmCounterBlock (nonce : List Nat) (i : Nat) : List Nat :=
  nonce ++ natToBytesBE 4 i

/-- CTR keystream covering `n` bytes (counter starts at 2; counter 1 is
reserved for the tag). -/
def gcmKeystream (key nonce : List Nat) (n : Nat) : List Nat :=
  (List.range ((n + 15) / 16)).flatMap
    (fun i => aes256Block key (gcmCounterBlock nonce (i + 2)))

/-- The GCM authentication tag over a ciphertext (no associated data,
matching `associated_data=None` in the source). -/
def gcmTag (key nonce ct : List Nat) : List Nat :=
  xorBytes (aes256Block key (gcmCounterBlock nonce 1))
    (natToBytesBE 16
      (ghash (bytesToNatBE (aes256Block key (List.replicate 16 0)))
        (chunks16 (pad16 ct) ++ [natToBytesBE 8 0 ++ natToBytesBE 8 (ct.length * 8)])))

/-- Model of `AESGCM(key).encrypt(nonce, pt, None)`: returns
`ciphertext || 16-byte tag`. -/
def aesgcmEncrypt (key nonce pt : List Nat) : List Nat :=
  xorBytes pt (gcmKeystream key nonce pt.length) ++
    gcmTag key nonce (xorBytes pt (gcmKeystream key nonce pt.length))

/-- Model of `AESGCM(key).decrypt(nonce, data, None)`: verifies the
trailing tag, then strips the keystream; `none` models `InvalidTag`. -/
def aesgcmDecrypt (key nonce data : List Nat) : Option (List Nat) :=
  if data.length < 16 then none
  else
    if data.drop (data.length - 16) =
        gcmTag key nonce (data.take (data.length - 16)) then
      some (xorBytes (data.take (data.length - 16))
        (gcmKeystream key nonce (data.take (data.length - 16)).length))
    else none

/-! ### `encrypt_content` / `decrypt_content` (`app/core/encryption.py`) -/

/-- Exceptions that can arise inside the `try` block of
`decrypt_content`: `binascii.Error` from `b64decode`, `ValueError` from
the `AESGCM` constructor on a wrong-size key, `InvalidTag` from
`AESGCM.decrypt`, and `UnicodeDecodeError` from `bytes.decode`. -/
inductive CryptoExc where
  | invalidTag : CryptoExc
  | binasciiError : CryptoExc
  | valueError : CryptoExc
  | unicodeDecodeError : CryptoExc
deriving DecidableEq

/-- The module's only exception class: `class EncryptionError(Exception)`.
Both `except` clauses of `decrypt_content` raise it; the two failure
modes differ only in the message string. -/
inductive EncErr where
  | encryptionError (msg : String) : EncErr
deriving DecidableEq

def tagFailMsg : String :=
  "Authentication tag verification failed. Data may have been tampered with."

def decryptFailMsg : String := "Failed to decrypt content"

def encryptFailMsg : String := "Failed to encrypt content"

/-- The `AESGCM` constructor accepts 128/192/256-bit keys. -/
def aesgcmKeyOk (key : List Nat) : Bool :=
  key.length == 16 || key.length == 24 || key.length == 32

/-- Model of `encrypt_content(plaintext, master_key)`.  The random
12-byte nonce drawn by `os.urandom(12)` is passed explicitly.  Returns
`base64(nonce || ciphertext || tag)`. -/
def encrypt_content (nonce : List Nat) (plaintext : List Char)
    (master_key : List Nat) : Except EncErr (List Char) :=
  if aesgcmKeyOk master_key then
    .ok (b64Encode (nonce ++ aesgcmEncrypt master_key nonce (utf8Encode plaintext)))
  else .error (.encryptionError encryptFailMsg)

/-- The body of `decrypt_content`'s `try` block: base64-decode, split
off the first 12 bytes as nonce, construct the cipher (key-size check),
decrypt with tag verification, UTF-8-decode. -/
def decrypt_content_inner (encrypted_b64 : List Char) (master_key : List Nat) :
    Except CryptoExc (List Char) :=
  match b64Decode encrypted_b64 with
  | .error _ => .error .binasciiError
  | .ok encrypted =>
    if aesgcmKeyOk master_key then
      match aesgcmDecrypt master_key (encrypted.take 12) (encrypted.drop 12) with
      | none => .error .invalidTag
      | some ptBytes =>
        match utf8Decode ptBytes with
        | some s => .ok s
        | none => .error .unicodeDecodeError
    else .error .valueError

/-- Model of `decrypt_content(encrypted_b64, master_key)`: the
`except InvalidTag` clause maps tag failures to `EncryptionError` with
the tamper message, and `except Exception` maps every other internal
failure to `EncryptionError` with the generic message. -/
def decrypt_content (encrypted_b64 : List Char) (master_key : List Nat) :
    Except EncErr (List Char) :=
  match decrypt_content_inner encrypted_b64 master_key with
  | .ok s => .ok s
  | .error .invalidTag => .error (.encryptionError tagFailMsg)
  | .error _ => .error (.encryptionError decryptFailMsg)

/-! ### Ephemeral state stores (`app/services/state_store.py`) -/

/-- Association-list model of a Python `dict` with `List Char` keys. -/
def lookupA {α : Type} (k : List Char) : List (List Char × α) → Option α
  | [] => none
  | (k2, v) :: rest => if k2 = k then some v else lookupA k rest

/-- Removing a key, as `dict.pop` / `del` do. -/
def eraseA {α : Type} (k : List Char) (l : List (List Char × α)) :
    List (List Char × α) :=
  l.filter (fun p => p.1 != k)

/-- Assigning a key, as `d[k] = v` does. -/
def insertA {α : Type} (k : List Char) (v : α) (l : List (List Char × α)) :
    List (List Char × α) :=
  (k, v) :: eraseA k l

/-- Payload stored by `save_oauth_state` (minus the added `expires_at`). -/
structure OAuthStateData where
  code_verifier : List Char
  nonce : List Char
  redirect_to : Option (List Char)
deriving DecidableEq

/-- A stored state entry: the payload plus `expires_at`. -/
structure OAuthStateEntry where
  data : OAuthStateData
  expires_at : Nat
deriving DecidableEq

namespace OAuthStateStore

abbrev Store := List (List Char × OAuthStateEntry)

/-- Model of `OAuthStateStore.save_oauth_state` (default TTL 300 s). -/
def save_oauth_state (st : Store) (state : List Char) (data : OAuthStateData)
    (ttl_seconds now : Nat) : Store :=
  insertA state ⟨data, now + ttl_seconds⟩ st

/-- Model of `OAuthStateStore.get_oauth_state`: pop the entry (one-time
use), then return `none` if it was absent or already expired. -/
def get_oauth_state (st : Store) (state : List Char) (now : Nat) :
    Option OAuthStateData × Store :=
  match lookupA state st with
  | none => (none, st)
  | some e =>
    if e.expires_at < now then (none, eraseA state st)
    else (some e.data, eraseA state st)

end OAuthStateStore

/-- A session record as built by `SessionStore.create_session`. -/
structure SessionData where
  user_id : List Char
  created_at : Nat
  expires_at : Nat
deriving DecidableEq

namespace SessionStore

abbrev Store := List (List Char × SessionData)

/-- Model of `SessionStore.create_session` (TTL in days). -/
def create_session (st : Store) (user_id refresh_token_hash : List Char)
    (ttl_days now : Nat) : Store × List Char :=
  (insertA refresh_token_hash
    ⟨user_id, now, now + ttl_days * 86400⟩ st, refresh_token_hash)

/-- Model of `SessionStore.get_session`: a hit is returned unchanged; an
expired entry is deleted lazily. -/
def get_session (st : Store) (refresh_token_hash : List Char) (now : Nat) :
    Option SessionData × Store :=
  match lookupA refresh_token_hash st with
  | none => (none, st)
  | some session =>
    if session.expires_at < now then (none, eraseA refresh_token_hash st)
    else (some session, st)

/-- Model of `SessionStore.delete_session`. -/
def delete_session (st : Store) (refresh_token_hash : List Char) : Store :=
  eraseA refresh_token_hash st

end SessionStore

/-- A Python value stored in a user dict. -/
inductive PyVal where
  | vstr (s : List Char) : PyVal
  | vnone : PyVal
  | vdatetime (t : Nat) : PyVal
deriving DecidableEq

/-- A user record is the exact `dict` literal built by `create_user`. -/
abbrev UserDict := List (String × PyVal)

def optStr : Option (List Char) → PyVal
  | some s => .vstr s
  | none => .vnone

/-- Lookup of a field in a user dict (`user.get(k)` / `user[k]`). -/
def dictGet : UserDict → String → Option PyVal
  | [], _ => none
  | (k2, v) :: rest, k => if k2 = k then some v else dictGet rest k

/-- `user[k]` for a key holding a string (empty on absence). -/
def dictStr (d : UserDict) (k : String) : List Char :=
  match dictGet d k with
  | some (.vstr s) => s
  | _ => []

/-- `user.get(k)` for an optional string field. -/
def dictOptStr (d : UserDict) (k : String) : Option (List Char) :=
  match dictGet d k with
  | some (.vstr s) => some s
  | _ => none

/-- The three dictionaries held by `UserStore`. -/
structure UserStoreState where
  users : List (List Char × UserDict)
  google_id_index : List (List Char × List Char)
  email_index : List (List Char × List Char)
deriving DecidableEq

namespace UserStore

/-- Model of `UserStore.create_user`.  The random part of the generated
`user_{secrets.token_urlsafe(16)}` id is passed as `uid_token`.  The
record it builds carries exactly the keys `id`, `google_id`, `email`,
`name`, `picture_url` and `created_at`. -/
def create_user (st : UserStoreState) (google_id email : List Char)
    (name picture : Option (List Char)) (uid_token : List Char) (now : Nat) :
    UserDict × UserStoreState :=
  let user_id := "user_".toList ++ uid_token
  let user_data : UserDict :=
    [("id", .vstr user_id), ("google_id", .vstr google_id),
     ("email", .vstr email), ("name", optStr name),
     ("picture_url", optStr picture), ("created_at", .vdatetime now)]
  (user_data,
   ⟨insertA user_id user_data st.users,
    insertA google_id user_id st.google_id_index,
    insertA email user_id st.email_index⟩)

/-- Model of `UserStore.get_user`. -/
def get_user (st : UserStoreState) (user_id : List Char) : Option UserDict :=
  lookupA user_id st.users

/-- Model of `UserStore.get_user_by_google_id`. -/
def get_user_by_google_id (st : UserStoreState) (google_id : List Char) :
    Option UserDict :=
  match lookupA google_id st.google_id_index with
  | some uid => lookupA uid st.users
  | none => none

end UserStore

/-! ### Token service (`app/core/security.py`, jose JWT model) -/

/-- Claims carried by an access token (`user_id`, `email` from the
payload dict, `exp` and `iat` added by `create_access_token`). -/
structure JWTClaims where
  user_id : Option (List Char)
  email : Option (List Char)
  exp : Option Nat
  iat : Option Nat
deriving DecidableEq

def optBytes : Option (List Char) → List Nat
  | none => [0]
  | some s => 1 :: (natToBytesBE 4 (utf8Encode s).length ++ utf8Encode s)

def optNatBytes : Option Nat → List Nat
  | none => [0]
  | some n => 1 :: natToBytesBE 8 n

/-- Serialization of the claims as signing input. -/
def claimsBytes (c : JWTClaims) : List Nat :=
  optBytes c.user_id ++ optBytes c.email ++ optNatBytes c.exp ++ optNatBytes c.iat

/-- A signed JWT: claims plus HMAC-SHA256 signature (`HS256`). -/
structure JWToken where
  claims : JWTClaims
  sig : List Nat
deriving DecidableEq

/-- The jose error hierarchy as raised by `jwt.decode`:
`ExpiredSignatureError` is a distinct subclass of `JWTError`. -/
inductive JoseError where
  | jwtError : JoseError
  | expiredSignature : JoseError
deriving DecidableEq

/-- Model of `jose.jwt.encode(claims, key, algorithm="HS256")`. -/
def jwt_encode (secret : List Char) (claims : JWTClaims) : JWToken :=
  ⟨claims, hmacSha256 (utf8Encode secret) (claimsBytes claims)⟩

/-- Model of `jose.jwt.decode(token, key, algorithms=["HS256"])`:
verifies the signature, then the `exp` claim when present.  Absent
claims cause no error. -/
def jwt_decode (secret : List Char) (tok : JWToken) (now : Nat) :
    Except JoseError JWTClaims :=
  if tok.sig = hmacSha256 (utf8Encode secret) (claimsBytes tok.claims) then
    match tok.claims.exp with
    | some e => if e < now then .error .expiredSignature else .ok tok.claims
    | none => .ok tok.claims
  else .error .jwtError

/-- Configured access-token lifetime in minutes. -/
def ACCESS_TOKEN_EXPIRE_MINUTES : Nat := 30

/-- Configured refresh-token lifetime in days. -/
def REFRESH_TOKEN_EXPIRE_DAYS : Nat := 30

/-- Model of `create_access_token(data)` with
`data = {"user_id": ..., "email": ...}`: adds `exp` and `iat` and signs
with `settings.JWT_SECRET_KEY` (passed explicitly). -/
def create_access_token (jwtSecret user_id email : List Char) (now : Nat) :
    JWToken :=
  jwt_encode jwtSecret
    ⟨some user_id, some email, some (now + ACCESS_TOKEN_EXPIRE_MINUTES * 60),
      some now⟩

/-- Model of `verify_access_token`: calls `jwt.decode` and re-raises any
`JWTError` unchanged. -/
def verify_access_token (jwtSecret : List Char) (tok : JWToken) (now : Nat) :
    Except JoseError JWTClaims :=
  jwt_decode jwtSecret tok now

/-- A FastAPI `HTTPException` value. -/
structure HTTPExc where
  status : Nat
  detail : String
deriving DecidableEq

/-! ### Auth service (`app/services/auth_service.py`) -/

/-- The public profile returned by `get_current_user`. -/
structure UserProfile where
  id : List Char
  email : List Char
  name : Option (List Char)
  picture_url : Option (List Char)
deriving DecidableEq

/-- Model of `auth_service.get_current_user`: any `JWTError` from
verification (bad signature or expiry alike) becomes a single
401 `Invalid or expired token`; a missing (or empty, Python falsy)
`user_id` claim becomes 401 `Invalid token payload`. -/
def get_current_user (jwtSecret : List Char) (users : UserStoreState)
    (access_token : JWToken) (now : Nat) : Except HTTPExc UserProfile :=
  match verify_access_token jwtSecret access_token now with
  | .error _ => .error ⟨401, "Invalid or expired token"⟩
  | .ok payload =>
    match payload.user_id with
    | none => .error ⟨401, "Invalid token payload"⟩
    | some uid =>
      if uid = [] then .error ⟨401, "Invalid token payload"⟩
      else
        match UserStore.get_user users uid with
        | none => .error ⟨401, "User not found"⟩
        | some u =>
          .ok ⟨dictStr u "id", dictStr u "email",
            dictOptStr u "name", dictOptStr u "picture_url"⟩

/-- The payload returned by `refresh_access_token`. -/
structure RefreshResponse where
  access_token : JWToken
  token_type : List Char
  expires_in : Nat
deriving DecidableEq

/-- Model of `auth_service.refresh_access_token`: hash the presented
token, look the session up by hash, and on a hit issue a fresh access
token; the session store is returned so frame effects are visible. -/
def refresh_access_token (jwtSecret : List Char) (sessions : SessionStore.Store)
    (users : UserStoreState) (refresh_token : List Char) (now : Nat) :
    Except HTTPExc RefreshResponse × SessionStore.Store :=
  match SessionStore.get_session sessions (hash_refresh_token refresh_token) now with
  | (none, st2) => (.error ⟨401, "Invalid or expired refresh token"⟩, st2)
  | (some session, st2) =>
    match UserStore.get_user users session.user_id with
    | none => (.error ⟨401, "User not found"⟩, st2)
    | some user =>
      (.ok ⟨create_access_token jwtSecret (dictStr user "id")
          (dictStr user "email") now,
        "bearer".toList, ACCESS_TOKEN_EXPIRE_MINUTES * 60⟩, st2)

/-- Model of the get-or-create step of `handle_google_callback`
(`auth_service.py` lines 148–151): look the user up by Google subject
id and create the record on first login. -/
def get_or_create_user (st : UserStoreState) (google_id email : List Char)
    (name picture : Option (List Char)) (uid_token : List Char) (now : Nat) :
    UserDict × UserStoreState :=
  match UserStore.get_user_by_google_id st google_id with
  | some u => (u, st)
  | none => UserStore.create_user st google_id email name picture uid_token now

/-! ### Vault record service (`app/services/vault.py`, row level) -/

inductive VaultItemType where
  | note : VaultItemType
  | file : VaultItemType
  | medical_record : VaultItemType
  | preference : VaultItemType
  | measurement : VaultItemType
  | other : VaultItemType
deriving DecidableEq

inductive VaultItemSource where
  | manual : VaultItemSource
  | epic : VaultItemSource
  | fitbit : VaultItemSource
  | apple_health : VaultItemSource
  | importSrc : VaultItemSource
deriving DecidableEq

/-- A row of the `tags` table. -/
structure TagRec where
  id : Nat
  user_id : Nat
  name : List Char
  color : Option (List Char)
deriving DecidableEq

/-- A row of the `vault_items` table; `tags` holds the ids of the
associated `tags` rows (the `vault_item_tags` links of this row). -/
structure VaultItemRec where
  id : Nat
  user_id : Nat
  type : VaultItemType
  source : VaultItemSource
  source_id : Option (List Char)
  title : Option (List Char)
  content_encrypted : List Char
  metadata_encrypted : Option (List Char)
  created_at : Nat
  updated_at : Nat
  deleted_at : Option Nat
  tags : List Nat
deriving DecidableEq

/-- The two tables the vault service queries. -/
structure VaultDB where
  items : List VaultItemRec
  tags : List TagRec
deriving DecidableEq

/-- Insertion into a list kept newest-`created_at`-first. -/
def insertByCreatedDesc (x : VaultItemRec) : List VaultItemRec → List VaultItemRec
  | [] => [x]
  | y :: rest =>
    if y.created_at ≤ x.created_at then x :: y :: rest
    else y :: insertByCreatedDesc x rest

/-- Model of `order_by(VaultItem.created_at.desc())`. -/
def sortByCreatedDesc (l : List VaultItemRec) : List VaultItemRec :=
  l.foldr insertByCreatedDesc []

/-- Row filter used by `get_item` / `update_item` / `delete_item`:
`id == item_id AND user_id == caller AND deleted_at IS NULL`. -/
def ownedLive (user_id item_id : Nat) (r : VaultItemRec) : Bool :=
  r.id == item_id && r.user_id == user_id && r.deleted_at == none

/-- Model of `VaultService.get_item` at row level (the service then
decrypts the row via `_vault_item_to_response`, i.e. `decrypt_content`;
`none` is mapped to a 404 by the API layer). -/
def get_item (db : VaultDB) (user_id item_id : Nat) : Option VaultItemRec :=
  db.items.find? (ownedLive user_id item_id)

/-- The result dict of `list_items`. -/
structure ListItemsResult where
  items : List VaultItemRec
  total : Nat
  page : Nat
  page_size : Nat
  has_more : Bool
deriving DecidableEq

/-- Model of `VaultService.list_items` at row level: the filter chain,
`created_at` descending sort, count, and offset/limit pagination of the
source (each returned row is then decrypted via
`_vault_item_to_response`).  Falsy Python guards (`if item_type:` etc.)
skip a filter when the argument is `None` or empty; the tag filter is
additionally skipped when no requested name matches a tag row of the
caller. -/
def list_items (db : VaultDB) (user_id : Nat) (page page_size : Nat)
    (item_type : Option VaultItemType) (source : Option VaultItemSource)
    (tag_names : Option (List (List Char))) (search_title : Option (List Char)) :
    ListItemsResult :=
  let q0 := db.items.filter
    (fun r => r.user_id == user_id && r.deleted_at == none)
  let q1 := match item_type with
    | some t => q0.filter (fun r => r.type == t)
    | none => q0
  let q2 := match source with
    | some sp => q1.filter (fun r => r.source == sp)
    | none => q1
  let q3 := match search_title with
    | some pat =>
      if pat = [] then q2
      else q2.filter (fun r =>
        match r.title with
        | some t => decide ((pat.map Char.toLower) <:+: (t.map Char.toLower))
        | none => false)
    | none => q2
  let q4 := match tag_names with
    | none => q3
    | some names =>
      if names = [] then q3
      else
        match db.tags.filter
            (fun t => t.user_id == user_id && names.contains t.name) with
        | [] => q3
        | m0 :: ms =>
          q3.filter (fun r => (m0 :: ms).any (fun t => r.tags.contains t.id))
  let sorted := sortByCreatedDesc q4
  ⟨(sorted.drop ((page - 1) * page_size)).take page_size, sorted.length,
    page, page_size, decide ((page - 1) * page_size + page_size < sorted.length)⟩

/-- Mutate the first row matching `p`, as loading a row with `.first()`
and assigning to it does. -/
def updateFirstItem (p : VaultItemRec → Bool) (f : VaultItemRec → VaultItemRec) :
    List VaultItemRec → List VaultItemRec
  | [] => []
  | r :: rest => if p r then f r :: rest else r :: updateFirstItem p f rest

/-- Model of `VaultService.delete_item`: load the live row owned by the
caller, set its `deleted_at` to now, return the timestamp; `none` when
no such row exists. -/
def delete_item (db : VaultDB) (user_id item_id : Nat) (now : Nat) :
    Option Nat × VaultDB :=
  match db.items.find? (ownedLive user_id item_id) with
  | none => (none, db)
  | some _ =>
    (some now,
     ⟨updateFirstItem (ownedLive user_id item_id)
        (fun r => { r with deleted_at := some now }) db.items, db.tags⟩)

instance {ε α : Type} [DecidableEq ε] [DecidableEq α] :
    DecidableEq (Except ε α) := fun x y =>
  match x, y with
  | .ok a, .ok b =>
    if h : a = b then isTrue (h ▸ rfl) else isFalse (fun he => h (Except.ok.inj he))
  | .error a, .error b =>
    if h : a = b then isTrue (h ▸ rfl)
    else isFalse (fun he => h (Except.error.inj he))
  | .ok _, .error _ => isFalse (fun he => Except.noConfusion he)
  | .error _, .ok _ => isFalse (fun he => Except.noConfusion he)

/-! ### Claim theorems -/

/-! ### Theorems -/

theorem xor8_lt (a b : Nat) : xor8 a b < 256 := Nat.mod_lt _ (by decide)

theorem mem_xorBytes_lt {a b : List Nat} {x : Nat} (hx : x ∈ xorBytes a b) :
    x < 256 := by
  induction a generalizing b with
  | nil => simp [xorBytes] at hx
  | cons p ps ih =>
    cases b with
    | nil => simp [xorBytes] at hx
    | cons q qs =>
      simp only [xorBytes, List.zipWith, List.mem_cons] at hx
      rcases hx with h | h
      · exact h ▸ xor8_lt p q
      · exact ih h

theorem xor8_cancel {p k : Nat} (hp : p < 256) (hk : k < 256) :
    xor8 (xor8 p k) k = p := by
  have hlt : p ^^^ k < 256 := Nat.xor_lt_two_pow (n := 8) hp hk
  simp only [xor8, Nat.mod_eq_of_lt hlt]
  rw [Nat.xor_assoc, Nat.xor_self, Nat.xor_zero, Nat.mod_eq_of_lt hp]

theorem xorBytes_cancel {p k : List Nat}
    (hp : ∀ x ∈ p, x < 256) (hk : ∀ x ∈ k, x < 256)
    (hlen : p.length ≤ k.length) :
    xorBytes (xorBytes p k) k = p := by
  induction p generalizing k with
  | nil => simp [xorBytes]
  | cons a as ih =>
    cases k with
    | nil => simp at hlen
    | cons b bs =>
      simp only [xorBytes, List.zipWith, List.cons.injEq]
      refine ⟨xor8_cancel (hp a (by simp)) (hk b (by simp)), ?_⟩
      exact ih (fun x hx => hp x (by simp [hx]))
        (fun x hx => hk x (by simp [hx])) (by simpa using hlen)

theorem natToBytesBE_length (n v : Nat) : (natToBytesBE n v).length = n := by
  induction n generalizing v with
  | zero => rfl
  | succ m ih => simp [natToBytesBE, ih]

theorem mem_natToBytesBE_lt {n v x : Nat} (hx : x ∈ natToBytesBE n v) :
    x < 256 := by
  induction n generalizing v with
  | zero => simp [natToBytesBE] at hx
  | succ m ih =>
    simp only [natToBytesBE, List.mem_cons] at hx
    rcases hx with h | h
    · exact h ▸ Nat.mod_lt _ (by decide)
    · exact ih h

theorem b64Val_b64Char {n : Nat} (h : n < 64) : b64Val (b64Char n) = some n := by
  interval_cases n <;> decide

theorem b64Char_isSome {n : Nat} (h : n < 64) :
    (b64Val (b64Char n)).isSome = true := by
  rw [b64Val_b64Char h]; rfl

/-- Characters produced by the encoder are alphabet characters or `=`. -/
theorem mem_b64EncodeChunks {bs : List Nat} {c : Char} (hb : ∀ x ∈ bs, x < 256)
    (hc : c ∈ b64EncodeChunks bs) : (b64Val c).isSome = true ∨ c = '=' := by
  induction bs using b64EncodeChunks.induct with
  | case1 a b d rest ih =>
    have ha := hb a (by simp)
    have hbb := hb b (by simp)
    have hd := hb d (by simp)
    simp only [b64EncodeChunks, List.mem_cons] at hc
    rcases hc with rfl | rfl | rfl | rfl | hc
    · exact Or.inl (b64Char_isSome (by omega))
    · exact Or.inl (b64Char_isSome (by omega))
    · exact Or.inl (b64Char_isSome (by omega))
    · exact Or.inl (b64Char_isSome (by omega))
    · exact ih (fun x hx => hb x (by simp [hx])) hc
  | case2 a b =>
    have ha := hb a (by simp)
    have hbb := hb b (by simp)
    simp only [b64EncodeChunks, List.mem_cons] at hc
    rcases hc with rfl | rfl | rfl | hc
    · exact Or.inl (b64Char_isSome (by omega))
    · exact Or.inl (b64Char_isSome (by omega))
    · exact Or.inl (b64Char_isSome (by omega))
    · simp at hc
      exact Or.inr hc
  | case3 a =>
    have ha := hb a (by simp)
    simp only [b64EncodeChunks, List.mem_cons] at hc
    rcases hc with rfl | rfl | hc
    · exact Or.inl (b64Char_isSome (by omega))
    · exact Or.inl (b64Char_isSome (by omega))
    · simp at hc
      exact Or.inr hc
  | case4 => simp [b64EncodeChunks] at hc

/-- Every character produced by the encoder survives the decoder's
alphabet filter. -/
theorem b64Encode_filter (bs : List Nat) (hb : ∀ x ∈ bs, x < 256) :
    (b64Encode bs).filter (fun c => (b64Val c).isSome || c = '=') = b64Encode bs := by
  rw [List.filter_eq_self]
  intro c hc
  rcases mem_b64EncodeChunks hb hc with h | h
  · simp [h]
  · simp [h]

theorem b64Val_pad : b64Val '=' = none := by decide

/-- The decoder inverts the encoder on byte strings. -/
theorem b64DecodeGroups_encode (bs : List Nat) (hb : ∀ x ∈ bs, x < 256) :
    b64DecodeGroups (b64EncodeChunks bs) = .ok bs := by
  induction bs using b64EncodeChunks.induct with
  | case1 a b d rest ih =>
    have ha := hb a (by simp)
    have hbb := hb b (by simp)
    have hd := hb d (by simp)
    have h1 : a / 4 < 64 := by omega
    have h2 : a % 4 * 16 + b / 16 < 64 := by omega
    have h3 : b % 16 * 4 + d / 64 < 64 := by omega
    have h4 : d % 64 < 64 := by omega
    have hne3 : b64Char (b % 16 * 4 + d / 64) ≠ '=' := by
      intro h
      have hv := b64Val_b64Char h3
      rw [h, b64Val_pad] at hv
      exact Option.noConfusion hv
    have hne4 : b64Char (d % 64) ≠ '=' := by
      intro h
      have hv := b64Val_b64Char h4
      rw [h, b64Val_pad] at hv
      exact Option.noConfusion hv
    have e1 : a / 4 * 4 + (a % 4 * 16 + b / 16) / 16 = a := by omega
    have e2 : (a % 4 * 16 + b / 16) % 16 * 16 + (b % 16 * 4 + d / 64) / 4 = b := by
      omega
    have e3 : (b % 16 * 4 + d / 64) % 4 * 64 + d % 64 = d := by omega
    simp only [b64EncodeChunks, b64DecodeGroups, b64Val_b64Char h1,
      b64Val_b64Char h2, b64Val_b64Char h3, b64Val_b64Char h4,
      if_neg hne3, if_neg hne4, ih (fun x hx => hb x (by simp [hx]))]
    simp [e1, e2, e3]
  | case2 a b =>
    have ha := hb a (by simp)
    have hbb := hb b (by simp)
    have h1 : a / 4 < 64 := by omega
    have h2 : a % 4 * 16 + b / 16 < 64 := by omega
    have h3 : b % 16 * 4 < 64 := by omega
    have hne3 : b64Char (b % 16 * 4) ≠ '=' := by
      intro h
      have hv := b64Val_b64Char h3
      rw [h, b64Val_pad] at hv
      exact Option.noConfusion hv
    have e1 : a / 4 * 4 + (a % 4 * 16 + b / 16) / 16 = a := by omega
    have e2 : (a % 4 * 16 + b / 16) % 16 * 16 + (b % 16 * 4) / 4 = b := by omega
    simp only [b64EncodeChunks, b64DecodeGroups, b64Val_b64Char h1,
      b64Val_b64Char h2, b64Val_b64Char h3, if_neg hne3]
    simp [e1]
    omega
  | case3 a =>
    have ha := hb a (by simp)
    have h1 : a / 4 < 64 := by omega
    have h2 : a % 4 * 16 < 64 := by omega
    have e1 : a / 4 * 4 + (a % 4 * 16) / 16 = a := by omega
    simp only [b64EncodeChunks, b64DecodeGroups, b64Val_b64Char h1,
      b64Val_b64Char h2]
    simp
    omega
  | case4 => rfl

/-- Full round trip through the storage encoding. -/
theorem b64Decode_b64Encode (bs : List Nat) (hb : ∀ x ∈ bs, x < 256) :
    b64Decode (b64Encode bs) = .ok bs := by
  rw [b64Decode, b64Encode_filter bs hb]
  exact b64DecodeGroups_encode bs hb

theorem mem_utf8EncodeChar_lt {c : Char} {x : Nat} (hx : x ∈ utf8EncodeChar c) :
    x < 256 := by
  have hv : c.toNat < 0xD800 ∨ (0xDFFF < c.toNat ∧ c.toNat < 0x110000) := c.valid
  have hmax : c.toNat < 0x110000 := by omega
  unfold utf8EncodeChar at hx
  rcases Nat.lt_or_ge c.toNat 0x80 with h1 | h1
  · rw [if_pos h1] at hx
    simp at hx
    omega
  · rw [if_neg (by omega)] at hx
    rcases Nat.lt_or_ge c.toNat 0x800 with h2 | h2
    · rw [if_pos h2] at hx
      simp at hx
      omega
    · rw [if_neg (by omega)] at hx
      rcases Nat.lt_or_ge c.toNat 0x10000 with h3 | h3
      · rw [if_pos h3] at hx
        simp at hx
        omega
      · rw [if_neg (by omega)] at hx
        simp at hx
        omega

/-- Decoding the encoding of one character peels off exactly that
character. -/
theorem utf8Decode_encodeChar (c : Char) (bs : List Nat) :
    utf8Decode (utf8EncodeChar c ++ bs) =
      (utf8Decode bs).map (fun s => c :: s) := by
  have hv : c.toNat < 0xD800 ∨ (0xDFFF < c.toNat ∧ c.toNat < 0x110000) := c.valid
  have hof := Char.ofNat_toNat c
  rcases Nat.lt_or_ge c.toNat 0x80 with h1 | h1
  · rw [show utf8EncodeChar c = [c.toNat] from if_pos h1]
    simp only [List.cons_append, List.nil_append]
    simp only [utf8Decode]
    rw [if_pos h1, hof]
  · rcases Nat.lt_or_ge c.toNat 0x800 with h2 | h2
    · rw [show utf8EncodeChar c = [0xC0 + c.toNat / 64, 0x80 + c.toNat % 64]
        from by rw [utf8EncodeChar, if_neg (by omega), if_pos h2]]
      simp only [List.cons_append, List.nil_append]
      simp only [utf8Decode, utf8Val2, List.getD_cons_zero, List.getD_cons_succ,
        List.drop_succ_cons, List.drop_zero]
      rw [if_neg (by omega), if_neg (by omega), if_pos (by omega)]
      have he : (0xC0 + c.toNat / 64 - 0xC0) * 64 + (0x80 + c.toNat % 64 - 0x80) =
          c.toNat := by omega
      rw [he, hof, if_pos (by omega)]
    · rcases Nat.lt_or_ge c.toNat 0x10000 with h3 | h3
      · rw [show utf8EncodeChar c =
            [0xE0 + c.toNat / 4096, 0x80 + c.toNat / 64 % 64, 0x80 + c.toNat % 64]
          from by
            rw [utf8EncodeChar, if_neg (by omega), if_neg (by omega), if_pos h3]]
        simp only [List.cons_append, List.nil_append]
        simp only [utf8Decode, utf8Val3, List.getD_cons_zero, List.getD_cons_succ,
          List.drop_succ_cons, List.drop_zero]
        rw [if_neg (by omega), if_neg (by omega), if_neg (by omega),
          if_pos (by omega)]
        have he : (0xE0 + c.toNat / 4096 - 0xE0) * 4096 +
            (0x80 + c.toNat / 64 % 64 - 0x80) * 64 + (0x80 + c.toNat % 64 - 0x80) =
            c.toNat := by omega
        rw [he, hof, if_pos (by omega)]
      · rw [show utf8EncodeChar c =
            [0xF0 + c.toNat / 262144, 0x80 + c.toNat / 4096 % 64,
              0x80 + c.toNat / 64 % 64, 0x80 + c.toNat % 64]
          from by
            rw [utf8EncodeChar, if_neg (by omega), if_neg (by omega),
              if_neg (by omega)]]
        simp only [List.cons_append, List.nil_append]
        simp only [utf8Decode, utf8Val4, List.getD_cons_zero, List.getD_cons_succ,
          List.drop_succ_cons, List.drop_zero]
        rw [if_neg (by omega), if_neg (by omega), if_neg (by omega),
          if_neg (by omega), if_pos (by omega)]
        have he : (0xF0 + c.toNat / 262144 - 0xF0) * 262144 +
            (0x80 + c.toNat / 4096 % 64 - 0x80) * 4096 +
            (0x80 + c.toNat / 64 % 64 - 0x80) * 64 + (0x80 + c.toNat % 64 - 0x80) =
            c.toNat := by omega
        rw [he, hof, if_pos (by omega)]

/-- UTF-8 round trip: decoding the encoding of any string returns it. -/
theorem utf8Decode_utf8Encode (s : List Char) :
    utf8Decode (utf8Encode s) = some s := by
  induction s with
  | nil => simp [utf8Encode, utf8Decode]
  | cons c cs ih =>
    have : utf8Encode (c :: cs) = utf8EncodeChar c ++ utf8Encode cs := by
      simp [utf8Encode]
    rw [this, utf8Decode_encodeChar, ih]
    rfl

theorem mem_utf8Encode_lt {s : List Char} {x : Nat} (hx : x ∈ utf8Encode s) :
    x < 256 := by
  simp only [utf8Encode, List.mem_flatMap] at hx
  obtain ⟨c, _, hc⟩ := hx
  exact mem_utf8EncodeChar_lt hc

theorem sha256_length (msg : List Nat) : (sha256 msg).length = 32 := by
  simp [sha256, natToBytesBE_length]

theorem mem_sha256_lt {msg : List Nat} {x : Nat} (hx : x ∈ sha256 msg) : x < 256 := by
  simp only [sha256, List.mem_append] at hx
  rcases hx with ((((((h | h) | h) | h) | h) | h) | h) | h <;>
    exact mem_natToBytesBE_lt h

theorem hmacSha256_length (key msg : List Nat) :
    (hmacSha256 key msg).length = 32 := sha256_length _

theorem pbkdf2Iter_length (pw : List Nat) (n : Nat) :
    ∀ u acc : List Nat, acc.length = 32 → (pbkdf2Iter pw u acc n).length = 32 := by
  induction n with
  | zero => intro u acc h; exact h
  | succ m ih =>
    intro u acc h
    simp only [pbkdf2Iter]
    exact ih _ _ (by
      simp only [xorBytes, List.length_zipWith, hmacSha256_length, h]
      rfl)

theorem pbkdf2Block_length (pw salt : List Nat) (iters idx : Nat) :
    (pbkdf2Block pw salt iters idx).length = 32 :=
  pbkdf2Iter_length pw (iters - 1) _ _ (hmacSha256_length _ _)

theorem pbkdf2HmacSha256_length (pw salt : List Nat) (iters dkLen : Nat) :
    (pbkdf2HmacSha256 pw salt iters dkLen).length = dkLen := by
  simp only [pbkdf2HmacSha256, List.length_take]
  have hlen : ((List.range ((dkLen + 31) / 32)).flatMap
      (fun j => pbkdf2Block pw salt iters (j + 1))).length = 32 * ((dkLen + 31) / 32) := by
    rw [List.length_flatMap]
    have hgen : ∀ l : List Nat,
        (l.map (List.length ∘ fun j => pbkdf2Block pw salt iters (j + 1))).sum =
          32 * l.length := by
      intro l
      induction l with
      | nil => simp
      | cons x xs ih =>
        simp only [List.map_cons, List.sum_cons, Function.comp_apply,
          pbkdf2Block_length, ih, List.length_cons]
        ring
    rw [hgen]
    simp
  rw [hlen]
  omega

theorem mem_aes256Block_lt {key block : List Nat} {x : Nat}
    (hx : x ∈ aes256Block key block) : x < 256 := by
  simp only [aes256Block, aesFinalRound, addRoundKey] at hx
  exact mem_xorBytes_lt hx

theorem expandLoop_length (n : Nat) :
    ∀ ws : List Nat, (expandLoop ws n).length = ws.length + n := by
  induction n with
  | zero => intro ws; rfl
  | succ m ih =>
    intro ws
    simp only [expandLoop, ih]
    simp
    omega

theorem bytesToWords_length (l : List Nat) :
    (bytesToWords l).length = l.length / 4 := by
  induction l using bytesToWords.induct with
  | case1 b0 b1 b2 b3 rest ih =>
    simp only [bytesToWords, List.length_cons, ih]
    omega
  | case2 => rfl
  | case3 => simp [bytesToWords]
  | case4 => simp [bytesToWords]
  | case5 => simp [bytesToWords]

theorem keyExpansion256_length {key : List Nat} (hkey : key.length = 32) :
    (keyExpansion256 key).length = 60 := by
  simp [keyExpansion256, expandLoop_length, bytesToWords_length, hkey]

theorem flatMap_natToBytesBE4_length (l : List Nat) :
    (l.flatMap (natToBytesBE 4)).length = 4 * l.length := by
  induction l with
  | nil => rfl
  | cons x xs ih =>
    simp [natToBytesBE_length, ih]
    omega

theorem roundKeyBytes_length {ws : List Nat} (hws : ws.length = 60) (r : Nat)
    (hr : r ≤ 14) : (roundKeyBytes ws r).length = 16 := by
  simp only [roundKeyBytes, flatMap_natToBytesBE4_length, List.length_take,
    List.length_drop, hws]
  omega

theorem shiftRowsL_length (st : List Nat) : (shiftRowsL st).length = 16 := rfl

theorem aes256Block_length {key : List Nat} (hkey : key.length = 32)
    (block : List Nat) : (aes256Block key block).length = 16 := by
  have hws := keyExpansion256_length hkey
  simp only [aes256Block, aesFinalRound, addRoundKey, xorBytes,
    List.length_zipWith, shiftRowsL_length,
    roundKeyBytes_length hws 14 (by omega)]
  omega

theorem gcmKeystream_length {key : List Nat} (hkey : key.length = 32)
    (nonce : List Nat) (n : Nat) :
    (gcmKeystream key nonce n).length = 16 * ((n + 15) / 16) := by
  simp only [gcmKeystream, List.length_flatMap]
  have hgen : ∀ l : List Nat,
      (l.map (List.length ∘ fun i => aes256Block key (gcmCounterBlock nonce (i + 2)))).sum =
        16 * l.length := by
    intro l
    induction l with
    | nil => simp
    | cons x xs ih =>
      simp only [List.map_cons, List.sum_cons, Function.comp_apply,
        aes256Block_length hkey, ih, List.length_cons]
      ring
  rw [hgen]
  simp

theorem mem_gcmKeystream_lt {key nonce : List Nat} {n x : Nat}
    (hx : x ∈ gcmKeystream key nonce n) : x < 256 := by
  simp only [gcmKeystream, List.mem_flatMap] at hx
  obtain ⟨i, _, hi⟩ := hx
  exact mem_aes256Block_lt hi

theorem gcmTag_length {key : List Nat} (hkey : key.length = 32)
    (nonce ct : List Nat) : (gcmTag key nonce ct).length = 16 := by
  simp only [gcmTag, xorBytes, List.length_zipWith, aes256Block_length hkey,
    natToBytesBE_length]
  omega

theorem mem_gcmTag_lt {key nonce ct : List Nat} {x : Nat}
    (hx : x ∈ gcmTag key nonce ct) : x < 256 := mem_xorBytes_lt hx

/-- GCM round trip: decryption inverts encryption for a 32-byte key. -/
theorem aesgcmDecrypt_aesgcmEncrypt {key pt : List Nat} (nonce : List Nat)
    (hkey : key.length = 32) (hpt : ∀ x ∈ pt, x < 256) :
    aesgcmDecrypt key nonce (aesgcmEncrypt key nonce pt) = some pt := by
  have hks : (gcmKeystream key nonce pt.length).length = 16 * ((pt.length + 15) / 16) :=
    gcmKeystream_length hkey nonce pt.length
  have hksge : pt.length ≤ (gcmKeystream key nonce pt.length).length := by
    rw [hks]; omega
  have hct : (xorBytes pt (gcmKeystream key nonce pt.length)).length = pt.length := by
    simp only [xorBytes, List.length_zipWith]
    omega
  have htag : (gcmTag key nonce (xorBytes pt (gcmKeystream key nonce pt.length))).length = 16 :=
    gcmTag_length hkey _ _
  simp only [aesgcmEncrypt, aesgcmDecrypt, List.length_append, hct, htag]
  rw [if_neg (by omega)]
  have hcut : pt.length + 16 - 16 =
      (xorBytes pt (gcmKeystream key nonce pt.length)).length := by omega
  rw [hcut, List.take_left, List.drop_left, if_pos rfl, hct]
  rw [xorBytes_cancel hpt (fun x hx => mem_gcmKeystream_lt hx) hksge]

/-- Round trip of the full storage pipeline, for any 32-byte key and
12-byte nonce. -/
theorem decrypt_content_encrypt_content (plaintext : List Char)
    (master_key nonce : List Nat) (hkey : master_key.length = 32)
    (hn : nonce.length = 12) (hnb : forall x, x ∈ nonce → x < 256) :
    (encrypt_content nonce plaintext master_key).bind
      (fun blob => decrypt_content blob master_key) = .ok plaintext := by
  have hok : aesgcmKeyOk master_key = true := by
    simp [aesgcmKeyOk, hkey]
  have hbytes : ∀ x ∈ nonce ++ aesgcmEncrypt master_key nonce (utf8Encode plaintext),
      x < 256 := by
    intro x hx
    rcases List.mem_append.mp hx with h | h
    · exact hnb x h
    · rcases List.mem_append.mp h with h2 | h2
      · exact mem_xorBytes_lt h2
      · exact mem_gcmTag_lt h2
  have htake : (nonce ++ aesgcmEncrypt master_key nonce (utf8Encode plaintext)).take 12 =
      nonce := by
    rw [← hn]
    exact List.take_left _ _
  have hdrop : (nonce ++ aesgcmEncrypt master_key nonce (utf8Encode plaintext)).drop 12 =
      aesgcmEncrypt master_key nonce (utf8Encode plaintext) := by
    rw [← hn]
    exact List.drop_left _ _
  simp only [encrypt_content, hok, if_true]
  show decrypt_content
      (b64Encode (nonce ++ aesgcmEncrypt master_key nonce (utf8Encode plaintext)))
      master_key = .ok plaintext
  simp only [decrypt_content, decrypt_content_inner,
    b64Decode_b64Encode _ hbytes, hok, if_true, htake, hdrop,
    aesgcmDecrypt_aesgcmEncrypt nonce hkey (fun x hx => mem_utf8Encode_lt hx),
    utf8Decode_utf8Encode]

theorem lookupA_eraseA {α : Type} (k : List Char) (l : List (List Char × α)) :
    lookupA k (eraseA k l) = none := by
  induction l with
  | nil => rfl
  | cons p rest ih =>
    by_cases h : p.1 = k
    · simpa [eraseA, h] using ih
    · simpa [eraseA, lookupA, h] using ih

theorem lookupA_insertA {α : Type} (k : List Char) (v : α)
    (l : List (List Char × α)) : lookupA k (insertA k v l) = some v := by
  simp [insertA, lookupA]

/-- C1: for every plaintext string `P` and every valid 32-byte key `K`
(and any 12-byte nonce drawn by `os.urandom` during encryption),
decrypting the blob produced by encrypting `P` under `K` with the same
key `K` returns `P`:
`decrypt_content(encrypt_content(P, K), K) == P`. -/
theorem C1_encrypt_decrypt_round_trip (P : List Char) (K nonce : List Nat)
    (hK : K.length = 32) (hn : nonce.length = 12)
    (hnb : ∀ x ∈ nonce, x < 256) :
    (encrypt_content nonce P K).bind (fun blob => decrypt_content blob K) =
      .ok P :=
  decrypt_content_encrypt_content P K nonce hK hn hnb

theorem C1_witness :
    (encrypt_content (List.replicate 12 0) "hi".toList (List.replicate 32 7)).bind
      (fun blob => decrypt_content blob (List.replicate 32 7)) = .ok "hi".toList :=
  C1_encrypt_decrypt_round_trip "hi".toList (List.replicate 32 7)
    (List.replicate 12 0) (by decide) (by decide) (by decide)

/-- C2: once `get_oauth_state` has successfully returned the data stored
under a state token (a take-once read), any second call with the same
state token returns `none`, at every later (or earlier) clock value —
in particular even before the TTL expires. -/
theorem C2_state_single_use (st : OAuthStateStore.Store) (state : List Char)
    (now now2 : Nat) (d : OAuthStateData) (st2 : OAuthStateStore.Store)
    (h : OAuthStateStore.get_oauth_state st state now = (some d, st2)) :
    OAuthStateStore.get_oauth_state st2 state now2 = (none, st2) := by
  unfold OAuthStateStore.get_oauth_state at h ⊢
  cases hl : lookupA state st with
  | none =>
    simp [hl] at h
  | some e =>
    simp only [hl] at h
    by_cases hexp : e.expires_at < now
    · rw [if_pos hexp] at h
      simp at h
    · rw [if_neg hexp] at h
      simp only [Prod.mk.injEq] at h
      rw [← h.2, lookupA_eraseA]

theorem C2_witness :
    OAuthStateStore.get_oauth_state
      (OAuthStateStore.get_oauth_state
        [("s".toList, ⟨⟨"v".toList, "n".toList, none⟩, 300⟩)] "s".toList 10).2
      "s".toList 20 =
    (none,
     (OAuthStateStore.get_oauth_state
        [("s".toList, ⟨⟨"v".toList, "n".toList, none⟩, 300⟩)] "s".toList 10).2) :=
  C2_state_single_use
    [("s".toList, ⟨⟨"v".toList, "n".toList, none⟩, 300⟩)] "s".toList 10 20
    ⟨"v".toList, "n".toList, none⟩ _ (by decide)

/-- C9: master-key derivation is deterministic — two runs of
`derive_master_key` on identical identity secrets and salts produce the
same output, and that output is a 32-byte key. -/
theorem C9_derive_master_key_deterministic
    (appSecret1 appSecret2 gid1 gid2 : List Char) (salt1 salt2 : List Nat)
    (hsec : appSecret1 = appSecret2) (hgid : gid1 = gid2)
    (hsalt : salt1 = salt2) :
    derive_master_key appSecret1 gid1 salt1 =
      derive_master_key appSecret2 gid2 salt2 ∧
    (derive_master_key appSecret1 gid1 salt1).length = 32 := by
  subst hsec
  subst hgid
  subst hsalt
  refine ⟨rfl, ?_⟩
  simpa [derive_master_key, AES_KEY_SIZE] using
    pbkdf2HmacSha256_length (utf8Encode (gid1 ++ appSecret1)) salt1
      PBKDF2_ITERATIONS 32

theorem C9_witness :
    derive_master_key "app".toList "sub1".toList (List.replicate 32 1) =
      derive_master_key "app".toList "sub1".toList (List.replicate 32 1) ∧
    (derive_master_key "app".toList "sub1".toList (List.replicate 32 1)).length = 32 :=
  C9_derive_master_key_deterministic "app".toList "app".toList "sub1".toList
    "sub1".toList (List.replicate 32 1) (List.replicate 32 1) rfl rfl rfl

/-- C10: `decrypt_content` is total over its single error type — for
every input string and every key it either returns a plaintext or fails
with an `EncryptionError`; no other exception escapes, because every
internal failure (`binascii.Error`, wrong key size, `InvalidTag`,
`UnicodeDecodeError`) is mapped by the two `except` clauses. -/
theorem C10_decrypt_content_total (input : List Char) (key : List Nat) :
    (∃ s, decrypt_content input key = .ok s) ∨
    (∃ msg, decrypt_content input key = .error (.encryptionError msg)) := by
  unfold decrypt_content
  cases h : decrypt_content_inner input key with
  | ok s => exact Or.inl ⟨s, rfl⟩
  | error e =>
    cases e
    · exact Or.inr ⟨tagFailMsg, rfl⟩
    · exact Or.inr ⟨decryptFailMsg, rfl⟩
    · exact Or.inr ⟨decryptFailMsg, rfl⟩
    · exact Or.inr ⟨decryptFailMsg, rfl⟩

/-- C3 counterexample: at a concrete tampered blob (28 zero bytes:
12-byte nonce plus a forged all-zero tag) and a concrete 32-byte key,
tag verification fails and `decrypt_content` fails with the single
exception class `EncryptionError` — the code has no separate
`AuthenticationError` class; the tamper case differs from the generic
case only in the message, and a generic failure (malformed base64)
surfaces as the very same class. -/
theorem C3_counterexample :
    decrypt_content (b64Encode (List.replicate 28 0)) (List.replicate 32 0) =
      .error (.encryptionError tagFailMsg) ∧
    decrypt_content "A".toList (List.replicate 32 0) =
      .error (.encryptionError decryptFailMsg) := by
  constructor
  · decide
  · decide

/-- C3 amended: when tag verification fails during decryption,
`decrypt_content` raises `EncryptionError` with the tamper-specific
message, and every other internal failure raises `EncryptionError` with
the generic message — one exception class, with the two failure modes
distinguished only by the message text. -/
theorem C3_tag_failure_is_encryption_error (blob : List Char)
    (key : List Nat) (e : CryptoExc)
    (h : decrypt_content_inner blob key = .error e) :
    decrypt_content blob key =
      .error (.encryptionError
        (if e = .invalidTag then tagFailMsg else decryptFailMsg)) := by
  unfold decrypt_content
  rw [h]
  cases e
  · rfl
  · rfl
  · rfl
  · rfl

theorem C3_witness :
    decrypt_content (b64Encode (List.replicate 28 0)) (List.replicate 32 0) =
      .error (.encryptionError
        (if CryptoExc.invalidTag = .invalidTag then tagFailMsg
          else decryptFailMsg)) :=
  C3_tag_failure_is_encryption_error (b64Encode (List.replicate 28 0))
    (List.replicate 32 0) .invalidTag (by decide)

/-- C4: the identity record built by `UserStore.create_user` — the only
creation path reachable from the OIDC callback's get-or-create step —
carries exactly the keys `id`, `google_id`, `email`, `name`,
`picture_url` and `created_at`; no `encryption_salt` is generated or
stored, although the SQLAlchemy `users` model declares the column
non-nullable and the vault API derives the master key from it
(`generate_encryption_salt` is never called). -/
theorem C4_created_user_has_no_salt (st : UserStoreState)
    (google_id email : List Char) (name picture : Option (List Char))
    (uid_token : List Char) (now : Nat) :
    dictGet (UserStore.create_user st google_id email name picture uid_token now).1
      "encryption_salt" = none ∧
    ((UserStore.create_user st google_id email name picture uid_token now).1.map
      Prod.fst) =
      ["id", "google_id", "email", "name", "picture_url", "created_at"] := by
  constructor
  · rfl
  · rfl

/-- C6: presenting a valid, non-expired refresh token issues a new
access token and leaves the session store — and so the session record
keyed by the token's hash, with its user id, creation time and expiry —
completely unchanged; because nothing changed, the same refresh token
stays valid for any later refresh before its fixed expiry (no rotation,
no expiry extension). -/
theorem C6_refresh_no_rotation (jwtSecret : List Char)
    (sessions : SessionStore.Store) (users : UserStoreState)
    (tok : List Char) (now : Nat) (s : SessionData) (u : UserDict)
    (hs : lookupA (hash_refresh_token tok) sessions = some s)
    (hexp : ¬ s.expires_at < now)
    (hu : UserStore.get_user users s.user_id = some u) :
    refresh_access_token jwtSecret sessions users tok now =
      (.ok ⟨create_access_token jwtSecret (dictStr u "id") (dictStr u "email") now,
        "bearer".toList, ACCESS_TOKEN_EXPIRE_MINUTES * 60⟩, sessions) ∧
    (∀ now2, ¬ s.expires_at < now2 →
      (refresh_access_token jwtSecret sessions users tok now2).1 =
        .ok ⟨create_access_token jwtSecret (dictStr u "id") (dictStr u "email") now2,
          "bearer".toList, ACCESS_TOKEN_EXPIRE_MINUTES * 60⟩) := by
  have hmain : ∀ t, ¬ s.expires_at < t →
      refresh_access_token jwtSecret sessions users tok t =
        (.ok ⟨create_access_token jwtSecret (dictStr u "id") (dictStr u "email") t,
          "bearer".toList, ACCESS_TOKEN_EXPIRE_MINUTES * 60⟩, sessions) := by
    intro t ht
    unfold refresh_access_token SessionStore.get_session
    simp only [hs, if_neg ht, hu]
  refine ⟨hmain now hexp, fun now2 h2 => ?_⟩
  rw [hmain now2 h2]

theorem C6_witness :
    refresh_access_token "jwt".toList
      [(hash_refresh_token "tok".toList, ⟨"u1".toList, 0, 1000⟩)]
      ⟨[("u1".toList, [("id", .vstr "u1".toList),
          ("email", .vstr "e@x".toList)])], [], []⟩
      "tok".toList 50 =
      (.ok ⟨create_access_token "jwt".toList "u1".toList "e@x".toList 50,
        "bearer".toList, ACCESS_TOKEN_EXPIRE_MINUTES * 60⟩,
       [(hash_refresh_token "tok".toList, ⟨"u1".toList, 0, 1000⟩)]) :=
  (C6_refresh_no_rotation "jwt".toList
    [(hash_refresh_token "tok".toList, ⟨"u1".toList, 0, 1000⟩)]
    ⟨[("u1".toList, [("id", .vstr "u1".toList),
        ("email", .vstr "e@x".toList)])], [], []⟩
    "tok".toList 50 ⟨"u1".toList, 0, 1000⟩
    [("id", .vstr "u1".toList), ("email", .vstr "e@x".toList)]
    (by decide) (by decide) (by decide)).1

/-- C7 counterexample: a token with a bad signature and a token with a
valid signature but lapsed expiry both surface from `get_current_user`
as the identical 401 `Invalid or expired token` — not distinct
categories — and a well-signed token carrying no claims at all passes
`verify_access_token` without any error, so no `MalformedTokenError`
category exists for absent required claims. -/
theorem C7_counterexample :
    get_current_user "sec".toList ⟨[], [], []⟩
      ⟨⟨some "u1".toList, some "e".toList, some 100, some 0⟩, []⟩ 50 =
      .error ⟨401, "Invalid or expired token"⟩ ∧
    get_current_user "sec".toList ⟨[], [], []⟩
      (jwt_encode "sec".toList
        ⟨some "u1".toList, some "e".toList, some 100, some 0⟩) 200 =
      .error ⟨401, "Invalid or expired token"⟩ ∧
    verify_access_token "sec".toList
      (jwt_encode "sec".toList ⟨none, none, none, none⟩) 50 =
      .ok ⟨none, none, none, none⟩ := by
  refine ⟨by decide, by decide, by decide⟩

/-- C7 amended: at the jose level a bad signature raises `JWTError` and
a lapsed expiry raises the distinct subclass `ExpiredSignatureError`,
but `get_current_user` collapses both into a single
401 `Invalid or expired token`; a missing `user_id` claim is not a
verification failure at all and is only caught afterwards as
401 `Invalid token payload` — two user-visible categories, not three. -/
theorem C7_token_error_categories (jwtSecret : List Char)
    (users : UserStoreState) (tok : JWToken) (now : Nat) :
    (tok.sig ≠ hmacSha256 (utf8Encode jwtSecret) (claimsBytes tok.claims) →
      verify_access_token jwtSecret tok now = .error .jwtError ∧
      get_current_user jwtSecret users tok now =
        .error ⟨401, "Invalid or expired token"⟩) ∧
    (∀ e, tok.sig = hmacSha256 (utf8Encode jwtSecret) (claimsBytes tok.claims) →
      tok.claims.exp = some e → e < now →
      verify_access_token jwtSecret tok now = .error .expiredSignature ∧
      get_current_user jwtSecret users tok now =
        .error ⟨401, "Invalid or expired token"⟩) ∧
    (tok.claims.user_id = none →
      verify_access_token jwtSecret tok now = .ok tok.claims →
      get_current_user jwtSecret users tok now =
        .error ⟨401, "Invalid token payload"⟩) := by
  refine ⟨?_, ?_, ?_⟩
  · intro hsig
    have hv : verify_access_token jwtSecret tok now = .error .jwtError := by
      unfold verify_access_token jwt_decode
      rw [if_neg hsig]
    refine ⟨hv, ?_⟩
    unfold get_current_user
    rw [hv]
  · intro e hsig hexp hlt
    have hv : verify_access_token jwtSecret tok now = .error .expiredSignature := by
      unfold verify_access_token jwt_decode
      simp only [if_pos hsig, hexp, if_pos hlt]
    refine ⟨hv, ?_⟩
    unfold get_current_user
    rw [hv]
  · intro huid hv
    unfold get_current_user
    simp only [hv, huid]

theorem C7_witness :
    get_current_user "sec".toList ⟨[], [], []⟩
      ⟨⟨some "u1".toList, some "e".toList, some 100, some 0⟩, []⟩ 50 =
      .error ⟨401, "Invalid or expired token"⟩ ∧
    get_current_user "sec".toList ⟨[], [], []⟩
      (jwt_encode "sec".toList ⟨none, none, some 100, some 0⟩) 50 =
      .error ⟨401, "Invalid token payload"⟩ :=
  ⟨((C7_token_error_categories "sec".toList ⟨[], [], []⟩
      ⟨⟨some "u1".toList, some "e".toList, some 100, some 0⟩, []⟩ 50).1
      (by decide)).2,
   (C7_token_error_categories "sec".toList ⟨[], [], []⟩
      (jwt_encode "sec".toList ⟨none, none, some 100, some 0⟩) 50).2.2
      rfl (by decide)⟩

theorem mem_insertByCreatedDesc {x y : VaultItemRec} {l : List VaultItemRec} :
    x ∈ insertByCreatedDesc y l ↔ x = y ∨ x ∈ l := by
  induction l with
  | nil => simp [insertByCreatedDesc]
  | cons z rest ih =>
    simp only [insertByCreatedDesc]
    by_cases h : z.created_at ≤ y.created_at
    · simp [h]
    · simp only [if_neg h, List.mem_cons, ih]
      tauto

theorem mem_sortByCreatedDesc {x : VaultItemRec} {l : List VaultItemRec} :
    x ∈ sortByCreatedDesc l ↔ x ∈ l := by
  induction l with
  | nil => simp [sortByCreatedDesc]
  | cons y rest ih =>
    show x ∈ insertByCreatedDesc y (sortByCreatedDesc rest) ↔ _
    rw [mem_insertByCreatedDesc, ih]
    simp

theorem length_insertByCreatedDesc (y : VaultItemRec) (l : List VaultItemRec) :
    (insertByCreatedDesc y l).length = l.length + 1 := by
  induction l with
  | nil => rfl
  | cons z rest ih =>
    simp only [insertByCreatedDesc]
    by_cases h : z.created_at ≤ y.created_at
    · simp [h]
    · simp [h, ih]

theorem length_sortByCreatedDesc (l : List VaultItemRec) :
    (sortByCreatedDesc l).length = l.length := by
  induction l with
  | nil => rfl
  | cons y rest ih =>
    show (insertByCreatedDesc y (sortByCreatedDesc rest)).length = _
    rw [length_insertByCreatedDesc, ih]
    rfl

/-- Rows returned by an unfiltered `list_items` call are live rows of
the caller, on every page. -/
theorem mem_list_items_no_filters {db : VaultDB} {uid page psize : Nat}
    {x : VaultItemRec}
    (hx : x ∈ (list_items db uid page psize none none none none).items) :
    x ∈ db.items ∧ x.user_id = uid ∧ x.deleted_at = none := by
  simp only [list_items] at hx
  have h1 : x ∈ sortByCreatedDesc (db.items.filter
      (fun r => r.user_id == uid && r.deleted_at == none)) :=
    List.mem_of_mem_drop (List.mem_of_mem_take hx)
  rw [mem_sortByCreatedDesc] at h1
  rw [List.mem_filter] at h1
  refine ⟨h1.1, ?_, ?_⟩
  · have := h1.2
    simp only [Bool.and_eq_true, beq_iff_eq] at this
    exact this.1
  · have := h1.2
    simp only [Bool.and_eq_true, beq_iff_eq] at this
    exact this.2

/-- Decomposition of a successful `find?` combined with the effect of
`updateFirstItem` on the located row. -/
theorem updateFirstItem_decomp {p : VaultItemRec → Bool} {l : List VaultItemRec}
    {r : VaultItemRec} (h : l.find? p = some r)
    (f : VaultItemRec → VaultItemRec) :
    ∃ l1 l2, l = l1 ++ r :: l2 ∧ (∀ x ∈ l1, p x = false) ∧
      updateFirstItem p f l = l1 ++ f r :: l2 := by
  induction l with
  | nil => simp [List.find?] at h
  | cons x rest ih =>
    rw [List.find?] at h
    cases hp : p x with
    | true =>
      rw [hp] at h
      have hxr : x = r := by
        injection h
      subst hxr
      exact ⟨[], rest, rfl, by simp, by simp [updateFirstItem, hp]⟩
    | false =>
      rw [hp] at h
      obtain ⟨l1, l2, heq, hall, hupd⟩ := ih h
      refine ⟨x :: l1, l2, by simp [heq], ?_, by simp [updateFirstItem, hp, hupd]⟩
      intro y hy
      rcases List.mem_cons.mp hy with rfl | hy2
      · exact hp
      · exact hall y hy2

/-- C8: for a caller-owned, not-yet-deleted record (with `id` unique in
the table, as the primary key guarantees), `delete_item` returns the
soft-delete timestamp, keeps the physical row (same row count, the row
now carrying `deleted_at = now`), and afterwards both `get_item` on the
same id and `list_items` without filters (any page) exclude the record;
when no such record exists it returns `none` (mapped to a 404
`NotFoundError` by the API layer) and leaves the table unchanged. -/
theorem C8_soft_delete (db : VaultDB) (uid iid now : Nat)
    (huniq : (db.items.filter (fun x => x.id == iid)).length ≤ 1) :
    (∀ r, db.items.find? (ownedLive uid iid) = some r →
      (delete_item db uid iid now).1 = some now ∧
      (delete_item db uid iid now).2.items.length = db.items.length ∧
      (∃ r2 ∈ (delete_item db uid iid now).2.items,
          r2.id = r.id ∧ r2.deleted_at = some now) ∧
      get_item (delete_item db uid iid now).2 uid iid = none ∧
      (∀ page psize x,
        x ∈ (list_items (delete_item db uid iid now).2 uid page psize
              none none none none).items → x.id ≠ r.id)) ∧
    (db.items.find? (ownedLive uid iid) = none →
      delete_item db uid iid now = (none, db)) := by
  constructor
  · intro r hfind
    have hp : ownedLive uid iid r = true := List.find?_some hfind
    have hps : r.id = iid ∧ r.user_id = uid ∧ r.deleted_at = none := by
      simpa [ownedLive, Bool.and_eq_true, beq_iff_eq, and_assoc] using hp
    obtain ⟨l1, l2, heq, hl1, hupd⟩ :=
      updateFirstItem_decomp hfind (fun x => { x with deleted_at := some now })
    have hdel : delete_item db uid iid now =
        (some now,
         ⟨updateFirstItem (ownedLive uid iid)
            (fun x => { x with deleted_at := some now }) db.items, db.tags⟩) := by
      unfold delete_item
      rw [hfind]
    have hcount : (∀ x ∈ l1, ¬ x.id = iid) ∧ (∀ x ∈ l2, ¬ x.id = iid) := by
      rw [heq] at huniq
      rw [List.filter_append, List.filter_cons] at huniq
      simp only [hps.1, beq_self_eq_true, if_pos] at huniq
      have h1 : (l1.filter (fun x => x.id == iid)).length = 0 ∧
          (l2.filter (fun x => x.id == iid)).length = 0 := by
        simp only [List.length_append, List.length_cons] at huniq
        omega
      constructor
      · intro x hx
        have := List.filter_eq_nil_iff.mp (List.length_eq_zero.mp h1.1) x hx
        simpa [beq_iff_eq] using this
      · intro x hx
        have := List.filter_eq_nil_iff.mp (List.length_eq_zero.mp h1.2) x hx
        simpa [beq_iff_eq] using this
    refine ⟨by rw [hdel], ?_, ?_, ?_, ?_⟩
    · rw [hdel]
      show (updateFirstItem _ _ db.items).length = _
      rw [hupd, heq]
      simp
    · rw [hdel]
      show ∃ r2 ∈ updateFirstItem _ _ db.items, r2.id = r.id ∧ r2.deleted_at = some now
      refine ⟨{ r with deleted_at := some now }, ?_, rfl, rfl⟩
      rw [hupd]
      simp
    · rw [hdel]
      unfold get_item
      dsimp only
      rw [hupd]
      refine List.find?_eq_none.mpr ?_
      intro x hx
      rcases List.mem_append.mp hx with h | h
      · simp [hl1 x h]
      · rcases List.mem_cons.mp h with rfl | h2
        · simp [ownedLive]
        · intro hpx
          have hid : x.id = iid := by
            have := hpx
            simp only [ownedLive, Bool.and_eq_true, beq_iff_eq] at this
            exact this.1.1
          exact hcount.2 x h2 hid
    · intro page psize x hx
      intro hxid
      have hx3 := mem_list_items_no_filters hx
      rw [hdel] at hx3
      dsimp only at hx3
      rw [hupd] at hx3
      obtain ⟨hmem, huser, hlive⟩ := hx3
      rcases List.mem_append.mp hmem with h | h
      · exact hcount.1 x h (hxid.trans hps.1)
      · rcases List.mem_cons.mp h with rfl | h2
        · simp at hlive
        · exact hcount.2 x h2 (hxid.trans hps.1)
  · intro hnone
    unfold delete_item
    rw [hnone]

theorem C8_witness :
    (delete_item
      ⟨[⟨1, 7, .note, .manual, none, none, [], none, 5, 5, none, []⟩], []⟩
      7 1 99).1 = some 99 ∧
    get_item (delete_item
      ⟨[⟨1, 7, .note, .manual, none, none, [], none, 5, 5, none, []⟩], []⟩
      7 1 99).2 7 1 = none :=
  ⟨((C8_soft_delete
      ⟨[⟨1, 7, .note, .manual, none, none, [], none, 5, 5, none, []⟩], []⟩
      7 1 99 (by decide)).1
      ⟨1, 7, .note, .manual, none, none, [], none, 5, 5, none, []⟩
      (by decide)).1,
   ((C8_soft_delete
      ⟨[⟨1, 7, .note, .manual, none, none, [], none, 5, 5, none, []⟩], []⟩
      7 1 99 (by decide)).1
      ⟨1, 7, .note, .manual, none, none, [], none, 5, 5, none, []⟩
      (by decide)).2.2.2.1⟩

/-- C5 counterexample: a caller with a single live record carrying no
tags at all, listed with the non-empty requested tag-name set
`["other"]` (no tag of that name exists for the caller), still gets the
record back — the tag filter is silently skipped when no requested name
matches a tag row, so a record carrying none of the requested tags is
returned. -/
theorem C5_counterexample :
    (list_items
      ⟨[⟨1, 7, .note, .manual, none, none, [], none, 5, 5, none, []⟩], []⟩
      7 1 50 none none (some ["other".toList]) none).items =
      [⟨1, 7, .note, .manual, none, none, [], none, 5, 5, none, []⟩] ∧
    (⟨1, 7, .note, .manual, none, none, [], none, 5, 5, none, []⟩ :
      VaultItemRec).tags = [] := by
  refine ⟨by decide, rfl⟩

/-- C5 amended: with a non-empty requested tag-name set of which at
least one name exists as a tag of the caller, an unpaginated
`list_items` call (page 1, page size at least the caller's live row
count) returns exactly the live records owned by the caller that carry
at least one of the requested tags (OR semantics); if no requested name
matches any tag row of the caller, the code skips the tag filter
entirely and returns all live records instead. -/
theorem C5_tag_filter_or_semantics (db : VaultDB) (uid : Nat)
    (names : List (List Char)) (page_size : Nat)
    (hmatch : db.tags.filter
        (fun t => t.user_id == uid && names.contains t.name) ≠ [])
    (hsize : (db.items.filter
        (fun r => r.user_id == uid && r.deleted_at == none)).length ≤ page_size)
    (r : VaultItemRec) :
    r ∈ (list_items db uid 1 page_size none none (some names) none).items ↔
      (r ∈ db.items ∧ r.user_id = uid ∧ r.deleted_at = none ∧
        ∃ t ∈ db.tags, t.user_id = uid ∧ t.name ∈ names ∧ t.id ∈ r.tags) := by
  have hnames : ¬ names = [] := by
    intro hn
    subst hn
    apply hmatch
    refine List.filter_eq_nil_iff.mpr ?_
    intro t ht
    simp
  cases hfil : db.tags.filter
      (fun t => t.user_id == uid && names.contains t.name) with
  | nil => exact absurd hfil hmatch
  | cons m0 ms =>
    have hQlen : (sortByCreatedDesc
        ((db.items.filter (fun r => r.user_id == uid && r.deleted_at == none)).filter
          (fun r => (m0 :: ms).any (fun t => r.tags.contains t.id)))).length ≤
        page_size := by
      rw [length_sortByCreatedDesc]
      exact le_trans (List.length_filter_le _ _) hsize
    simp only [list_items, if_neg hnames, hfil]
    rw [show (1 - 1) * page_size = 0 from by omega, List.drop_zero,
      List.take_of_length_le hQlen, mem_sortByCreatedDesc]
    simp only [List.mem_filter, Bool.and_eq_true, beq_iff_eq, List.any_eq_true]
    constructor
    · rintro ⟨⟨hmem, huid2, hlive⟩, t, ht, htag⟩
      have ht2 : t ∈ db.tags.filter
          (fun t => t.user_id == uid && names.contains t.name) := by
        rw [hfil]
        exact ht
      rw [List.mem_filter] at ht2
      have hprops := ht2.2
      simp only [Bool.and_eq_true, beq_iff_eq] at hprops
      exact ⟨hmem, huid2, hlive,
        t, ht2.1, hprops.1, List.elem_iff.mp hprops.2, List.elem_iff.mp htag⟩
    · rintro ⟨hmem, huid2, hlive, t, ht, htuid, htname, htid⟩
      refine ⟨⟨hmem, huid2, hlive⟩, t, ?_, List.elem_iff.mpr htid⟩
      have ht2 : t ∈ db.tags.filter
          (fun t => t.user_id == uid && names.contains t.name) := by
        rw [List.mem_filter]
        refine ⟨ht, ?_⟩
        simp only [Bool.and_eq_true, beq_iff_eq]
        exact ⟨htuid, List.elem_iff.mpr htname⟩
      rw [hfil] at ht2
      exact ht2

theorem C5_amended_witness :
    (⟨1, 7, .note, .manual, none, none, [], none, 5, 5, none, [4]⟩ :
        VaultItemRec) ∈
      (list_items
        ⟨[⟨1, 7, .note, .manual, none, none, [], none, 5, 5, none, [4]⟩],
          [⟨4, 7, "health".toList, none⟩]⟩
        7 1 50 none none (some ["health".toList, "other".toList]) none).items ↔
      ((⟨1, 7, .note, .manual, none, none, [], none, 5, 5, none, [4]⟩ :
          VaultItemRec) ∈
        [⟨1, 7, .note, .manual, none, none, [], none, 5, 5, none, [4]⟩] ∧
       (7 : Nat) = 7 ∧ (none : Option Nat) = none ∧
        ∃ t ∈ [(⟨4, 7, "health".toList, none⟩ : TagRec)], t.user_id = 7 ∧
          t.name ∈ ["health".toList, "other".toList] ∧ t.id ∈ [4]) :=
  C5_tag_filter_or_semantics
    ⟨[⟨1, 7, .note, .manual, none, none, [], none, 5, 5, none, [4]⟩],
      [⟨4, 7, "health".toList, none⟩]⟩
    7 ["health".toList, "other".toList] 50 (by decide) (by decide)
    ⟨1, 7, .note, .manual, none, none, [], none, 5, 5, none, [4]⟩

end ContextVault
